import Mathlib

/-!
Verification of the markdown-to-webpage build system.

The development shallowly embeds the two programs of the repository:

* `webpage.c` — the per-page assembler.  Pure string construction is modelled
  directly; the filesystem is modelled as a function from absolute directory
  paths (lists of path segments from the root, so `[]` is `/`) to the list of
  entry names returned by `readdir`; file contents are lists of characters
  (bytes).  Fatal conditions (`exit` with a negative code, or a failed
  `assert`) are modelled with `Except Fatal`.
* `webpages.sh` — the build orchestrator.  The fragments the claims are about
  (the `-c` option wiring, the `sed` link rewrite, the cleanup `find -delete`
  passes) are modelled over strings and lists of file entries.

External collaborators (libc `strtol`, `readdir` enumeration order, the cmark
renderer, `getpwuid`, `strftime`) enter as parameters or are modelled from
their documented behaviour where a claim depends on them.
-/

/-! ## Generic character-list helpers (C `strstr`, substring counting) -/

/-- `strstr`-style test: does `pat` occur as a contiguous substring of `s`?
Mirrors C's `strstr( s, pat ) != NULL`. -/
def hasSubstr (pat : List Char) : List Char → Bool
  | [] => pat.isEmpty
  | c :: rest => pat.isPrefixOf (c :: rest) || hasSubstr pat rest

/-- Number of positions of `s` at which `pat` occurs as a contiguous
substring (for counting `../` segments of a relative path). -/
def countSub (pat : List Char) : List Char → Nat
  | [] => 0
  | c :: rest => (if pat.isPrefixOf (c :: rest) then 1 else 0) + countSub pat rest

theorem isPrefixOf_length_le : ∀ (p s : List Char), p.isPrefixOf s = true → p.length ≤ s.length := by
  intro p
  induction p with
  | nil => intro s _; simp
  | cons a as ih =>
    intro s h
    cases s with
    | nil => simp [List.isPrefixOf] at h
    | cons b bs =>
      simp only [List.isPrefixOf, Bool.and_eq_true] at h
      simpa [List.length_cons] using Nat.succ_le_succ (ih bs h.2)

theorem eq_append_drop_of_isPrefixOf :
    ∀ (p s : List Char), p.isPrefixOf s = true → s = p ++ s.drop p.length := by
  intro p
  induction p with
  | nil => intro s _; simp
  | cons a as ih =>
    intro s h
    cases s with
    | nil => simp [List.isPrefixOf] at h
    | cons b bs =>
      simp only [List.isPrefixOf, Bool.and_eq_true, beq_iff_eq] at h
      obtain ⟨rfl, h2⟩ := h
      simpa using ih bs h2

/-! ## `webpage.c`: constants, options, exit codes -/

/-- `webpage.c` constant strings for the generated HTML skeleton. -/
def g_Doctype : String := "<!DOCTYPE html>\n"

def g_PageOpenTag : String := "<html>\n"

def g_PageCloseTag : String := "</html>\n"

def g_HeadOpenTag : String := "<head>\n"

def g_HeadCloseTag : String := "</head>\n"

def g_TitleOpenTag : String := "<title>"

def g_TitleCloseTag : String := "</title>\n"

def g_CommentOpenTag : String := "<!--"

def g_CommentCloseTag : String := "-->\n"

def g_LinkOpenTag : String := "<link "

def g_LinkCloseTag : String := " >\n"

def g_BodyOpenTag : String := "<body>\n"

def g_BodyCloseTag : String := "</body>\n"

/-- Exit codes of `webpage.c`. -/
def EXIT_NO_MARKDOWN : Int := -1

def EXIT_MISSING_VALUE : Int := -2

def EXIT_UNKNOWN_OPTION : Int := -3

def EXIT_NO_CSS_FILE : Int := -4

def EXIT_ABS_PATH_REQUIRED : Int := -5

def EXIT_INVOKED_OUTSIDE_HTML_ROOT : Int := -6

/-- An absolute directory path, as the list of its segments from the
filesystem root; `[]` is `/` itself. -/
abbrev AbsPath := List String

/-- A directory listing oracle: the entry names `readdir` yields for each
absolute directory path, in enumeration order. -/
abbrev DirFs := AbsPath → List String

/-- A fatal end of the process: `exit` with a code, or a failed `assert`
(which raises `SIGABRT`, with no exit code and no user-facing message). -/
inductive Fatal where
  | exitCode (c : Int)
  | assertFail
deriving DecidableEq

/-- The `struct Options` of `webpage.c` (the fields the claims depend on;
`verbose` only gates stderr logging and `txtFilename` is never read).
`cssRoot` is the already-validated absolute path supplied with `-c`. -/
structure Options where
  includeTitle : Bool
  includeDTD : Bool
  includeAuthor : Bool
  includeDatetime : Bool
  cssRoot : Option AbsPath
  navEmbedCode : Option String
deriving DecidableEq

/-- `g_Options` initial value: everything included, no css root, no nav code. -/
def defaultOptions : Options :=
  { includeTitle := true, includeDTD := true, includeAuthor := true,
    includeDatetime := true, cssRoot := none, navEmbedCode := none }

/-! ## `getOptions`: the `-f` flags bitmask -/

/-- The C test `flag & flags` where `flag` is one of `0x01/0x02/0x04/0x08` and
`flags : long`.  Two's-complement AND with a mask `m < 16` only reads the low
four bits, which for any `Int` are those of `flags.emod 16` (a value in
`[0,16)`), so this encodes the C bit test exactly, negative values included. -/
def flagBitSet (flags : Int) (m : Nat) : Bool :=
  ((flags.emod 16).toNat &&& m) != 0

/-- The body of the `case 'f'` branch of `getOptions`: each set bit switches
the corresponding `include*` field off; everything else is untouched. -/
def applyFlags (flags : Int) (o : Options) : Options :=
  { o with
    includeDTD := if flagBitSet flags 1 then false else o.includeDTD,
    includeTitle := if flagBitSet flags 2 then false else o.includeTitle,
    includeAuthor := if flagBitSet flags 8 then false else o.includeAuthor,
    includeDatetime := if flagBitSet flags 4 then false else o.includeDatetime }

/-! ## libc `strtol(optarg, NULL, 16)`
Modelled from its documented behaviour (the repository calls it but does not
implement it): skip `isspace` characters, an optional sign, an optional
`0x`/`0X` prefix (consumed only when a hex digit follows), then the longest
run of hex digits; if no digits are consumed the result is `0`.  Overflow
clamping to `LONG_MAX`/`LONG_MIN` is not modelled; no claim depends on it. -/

/-- `isspace` in the C locale. -/
def isSpaceC (c : Char) : Bool :=
  c == ' ' || c == '\t' || c == '\n' || c == '\x0b' || c == '\x0c' || c == '\r'

/-- Value of a hexadecimal digit, if `c` is one. -/
def hexVal (c : Char) : Option Nat :=
  if '0' ≤ c ∧ c ≤ '9' then some (c.toNat - '0'.toNat)
  else if 'a' ≤ c ∧ c ≤ 'f' then some (c.toNat - 'a'.toNat + 10)
  else if 'A' ≤ c ∧ c ≤ 'F' then some (c.toNat - 'A'.toNat + 10)
  else none

/-- Does the list start with a hex digit? -/
def hexDigitStarts : List Char → Bool
  | d :: _ => (hexVal d).isSome
  | [] => false

/-- Strip a `0x`/`0X` marker, but only when a hex digit follows it
(otherwise `strtol` backtracks and parses the leading `0` alone). -/
def stripHexMarker (l : List Char) : List Char :=
  match l with
  | c0 :: c1 :: rest =>
    if c0 = '0' ∧ (c1 = 'x' ∨ c1 = 'X') ∧ hexDigitStarts rest = true then rest
    else l
  | _ => l

/-- Accumulated value of the longest leading run of hex digits. -/
def hexAccum (l : List Char) : Nat :=
  (l.takeWhile fun c => (hexVal c).isSome).foldl (fun a c => 16 * a + (hexVal c).getD 0) 0

/-- The magnitude `strtol` base 16 parses after the optional sign. -/
def strtolMag (l : List Char) : Nat := hexAccum (stripHexMarker l)

/-- Consume the optional sign: `(negative?, rest)`. -/
def strtolSignSplit (t : List Char) : Bool × List Char :=
  match t with
  | [] => (false, [])
  | c :: r => if c = '-' then (true, r) else if c = '+' then (false, r) else (false, c :: r)

/-- `strtol(s, NULL, 16)`. -/
def strtolHex (s : String) : Int :=
  if (strtolSignSplit (s.data.dropWhile isSpaceC)).1
  then -(strtolMag (strtolSignSplit (s.data.dropWhile isSpaceC)).2 : Int)
  else (strtolMag (strtolSignSplit (s.data.dropWhile isSpaceC)).2 : Int)

/-- Does the first character (if any) fail to be a hex digit? -/
def noHexHead : List Char → Bool
  | [] => true
  | c :: _ => (hexVal c).isNone

/-- `strtol` performs no conversion on `s`: after whitespace and an optional
sign there is no leading hex digit at all (so `endptr` would be reset to the
start of the string). -/
def strtolNoConv (s : String) : Bool :=
  noHexHead (strtolSignSplit (s.data.dropWhile isSpaceC)).2

/-- The complete `case 'f'` handler of `getOptions`: parse `optarg` with
`strtol` base 16 and apply the bits.  The branch has no `exit` and no
diagnostic output path, so its outcome is always `ok`. -/
def handleFlagsOpt (optarg : String) (o : Options) : Except Fatal Options :=
  .ok (applyFlags (strtolHex optarg) o)

/-! ## `getOptions`: positional-argument check after option parsing -/

/-- Outcome of the tail of `getOptions` (after the `getopt` loops):
`ok` proceeds to the build, `exited c` is `printf` + `exit c`, and
`assertAbort` is a failed `assert` (no message, no defined exit code). -/
inductive TailResult where
  | ok
  | exited (code : Int)
  | assertAbort
deriving DecidableEq

/-- Lines 899–906 of `webpage.c`: with `optind` the index of the first
positional argument after `getopt` has permuted (`argc - optind` is the number
of positionals), no positional exits `EXIT_NO_MARKDOWN`, exactly one proceeds,
anything else hits `assert( (optind + 1) == argc )`. -/
def positionalArgCheck (optind argc : Nat) : TailResult :=
  if optind = argc then .exited EXIT_NO_MARKDOWN
  else if optind + 1 = argc then .ok
  else .assertAbort

/-! ## `webpages.sh`: css option wiring, link rewrite, cleanup -/

/-- The bash test `[[ ${s} ]]`: true exactly when the string is non-empty. -/
def bashNonEmptyTest (s : String) : Bool := !(s == "")

/-- Line 66 of `webpages.sh`: the `css` variable defaults to the string
`"false"`; the `-c` script option (line 87) sets it to `"true"`. -/
def cssDefault : String := "false"

/-- Lines 184–187 of `webpages.sh`:
`if [[ ${css} ]] then cssOption=" -c ${abshtmlroot} " fi`.
The `cssOption` variable starts out empty (line 71). -/
def cssBuildOption (css : String) (abshtmlroot : String) : String :=
  if bashNonEmptyTest css then " -c " ++ abshtmlroot ++ " " else ""

/-- One file of the output tree: directory (segments under html-root),
basename, and contents. -/
structure FileEntry where
  dir : List String
  name : String
  content : List Char
deriving DecidableEq

/-- One `find . -name "*<pat>" -delete` pass: removes exactly the files whose
basename matches the glob (`*` can match anything including the empty string,
so the glob `*.md` is exactly the suffix test). -/
def deleteMatching (pat : String) (files : List FileEntry) : List FileEntry :=
  files.filter fun f => !(f.name.endsWith pat)

/-- Lines 226–228 of `webpages.sh`: the three cleanup passes in order. -/
def cleanupPass (files : List FileEntry) : List FileEntry :=
  deleteMatching ".txt" (deleteMatching ".backup" (deleteMatching ".md" files))

/-! ## `copyFile` of `webpage.c` (lines 260–305)

The input file is `data` (its `st_size` is `data.length`), `blk` is
`st_blksize`.  Each `fread` of a regular file returns `min blk remaining`
bytes, so `bytesRead` after a read at offset `pos` is `pos + min blk
(size - pos)`; since that never exceeds `size`, the `while` condition
`st_size >= bytesRead` always holds and the loop is only left through its
`break`.  A full block is written with `fwrite(buf, blksize, 1)` (counted in
blocks); the final write emits `bytesRead % blksize` bytes, after rescaling
`written` to bytes; then `assert( bytesRead == written )` runs.  `none` is the
failed assert.  (`st_blksize` is always positive; were it zero the C loop
would never terminate, so `copyFile` guards on it and the `blk = 0` branch is
unreachable in reality.) -/

def copyFileLoop (blk : Nat) (hblk : 0 < blk) (data : List Char) (pos w : Nat)
    (out : List Char) : Option (List Char) :=
  if h : pos + min blk (data.length - pos) < data.length then
    copyFileLoop blk hblk data (pos + min blk (data.length - pos)) (w + 1)
      (out ++ (data.drop pos).take blk)
  else
    if pos + min blk (data.length - pos)
        = w * blk + (pos + min blk (data.length - pos)) % blk then
      some (out ++ (data.drop pos).take ((pos + min blk (data.length - pos)) % blk))
    else
      none
termination_by data.length - pos
decreasing_by omega

/-- `copyFile`: run the loop from the start of the file. -/
def copyFile (blk : Nat) (data : List Char) : Option (List Char) :=
  if h : 0 < blk then copyFileLoop blk h data 0 0 [] else none

/-! ## `findCssFile` of `webpage.c` (lines 382–449) -/

/-- Result of the upward stylesheet search: a relative path (the accumulated
`searchDir` buffer with the entry name appended), or the `NULL` return (the
caller then exits `EXIT_NO_CSS_FILE`), or the `exit` with
`EXIT_INVOKED_OUTSIDE_HTML_ROOT` taken when the canonicalized search
directory is `/` before ever matching the css root. -/
inductive CssSearchResult where
  | found (relPath : List Char)
  | noCss
  | outsideRoot
deriving DecidableEq

/-- The match test of the `readdir` loop: `strstr( d_name, ".css" )`. -/
def containsCss (name : String) : Bool := hasSubstr ".css".data name.data

/-- The `do/while` search loop.  `cur` is the absolute path the relative
`searchDir` buffer canonicalizes to (symlink-free filesystem); ascending one
level is `cur.dropLast`, and `canonicalize` returning `/` is `cur = []`.
`readdir` yields `fs cur` in order, and the first entry containing `.css`
wins.  The `/` test comes before the css-root comparison, exactly as in the
source. -/
def findCssFile (fs : DirFs) (cssRoot : AbsPath) (cur : AbsPath)
    (searchDir : List Char) : CssSearchResult :=
  match (fs cur).find? containsCss with
  | some name => .found (searchDir ++ name.data)
  | none =>
    if h : cur = [] then .outsideRoot
    else if cur = cssRoot then .noCss
    else findCssFile fs cssRoot cur.dropLast (searchDir ++ ['.', '.', '/'])
termination_by cur.length
decreasing_by
  have hpos : 0 < cur.length := List.length_pos.mpr h
  simp only [List.length_dropLast]
  omega

/-! ## Page assembly (`includeCSSFile`, `includeTxtFile`, `addWebpageHead`,
`addWebpageBody`, `makeWebpage`) -/

/-- Everything `webpage.c` reads from its environment while assembling one
page: the filename stem (`g_RootFilename`), the `getpwuid` username, the
`strftime` text, the cmark-rendered body, the sidecar `.txt` file's bytes if
`fopen` finds one, its `st_blksize`, the directory oracle and the absolute
path of the working directory (for the css search). -/
structure PageCtx where
  rootFilename : String
  username : String
  timeStr : String
  rendered : String
  txtFile : Option (List Char)
  blksize : Nat
  fs : DirFs
  cwd : AbsPath

/-- `includeCSSFile` (lines 460–479): search, then either write the link or
`exit( EXIT_NO_CSS_FILE )`; the search itself can exit for the outside-root
condition. -/
def includeCSSFile (fs : DirFs) (cssRoot : AbsPath) (cwd : AbsPath) :
    Except Fatal String :=
  match findCssFile fs cssRoot cwd ['.', '/'] with
  | .found p =>
    .ok (g_LinkOpenTag ++ " rel=\"stylesheet\" href=\"" ++ String.mk p ++ "\" "
          ++ g_LinkCloseTag)
  | .noCss => .error (.exitCode EXIT_NO_CSS_FILE)
  | .outsideRoot => .error (.exitCode EXIT_INVOKED_OUTSIDE_HTML_ROOT)

/-- `includeTxtFile` (lines 491–515): absence of the sidecar is not an error;
when present its bytes go through `copyFile`, whose failed assert is fatal. -/
def includeTxtFile (txt : Option (List Char)) (blk : Nat) : Except Fatal String :=
  match txt with
  | none => .ok ""
  | some fileData =>
    match copyFile blk fileData with
    | some written => .ok (String.mk written)
    | none => .error .assertFail

/-- The stylesheet-link step of the head: only performed when `-c` was given
(`g_Options.cssRoot != NULL`). -/
def cssSection (o : Options) (ctx : PageCtx) : Except Fatal String :=
  match o.cssRoot with
  | some root => includeCSSFile ctx.fs root ctx.cwd
  | none => .ok ""

/-- `addWebpageHead` (lines 591–650): title, author comment, datetime
comment (in that order), then the css link only when `-c` was given, then the
sidecar text, between the head tags. -/
def addWebpageHead (o : Options) (ctx : PageCtx) : Except Fatal String :=
  match cssSection o ctx with
  | .error e => .error e
  | .ok cssPart =>
    match includeTxtFile ctx.txtFile ctx.blksize with
    | .error e => .error e
    | .ok txtPart =>
      .ok (g_HeadOpenTag
        ++ (if o.includeTitle
            then g_TitleOpenTag ++ ctx.rootFilename ++ g_TitleCloseTag else "")
        ++ (if o.includeAuthor
            then g_CommentOpenTag ++ "Author is " ++ ctx.username ++ g_CommentCloseTag
            else "")
        ++ (if o.includeDatetime
            then g_CommentOpenTag ++ "Datetime is " ++ ctx.timeStr ++ g_CommentCloseTag
            else "")
        ++ cssPart ++ txtPart ++ g_HeadCloseTag)

/-- `addWebpageBody` (lines 529–579): the rendered markdown, then — when
`-n` was given — the comment wrapper with the navigation embedding, then the
closing body tag. -/
def addWebpageBody (o : Options) (ctx : PageCtx) : String :=
  g_BodyOpenTag ++ ctx.rendered ++
  (match o.navEmbedCode with
   | some nav => g_CommentOpenTag ++ " NAVIGATION EMBEDDING GOES HERE \n" ++ nav
                  ++ g_CommentCloseTag
   | none => "") ++
  g_BodyCloseTag

/-- `makeWebpage` (lines 693–731): optional DOCTYPE, the never-omittable
`<html>`, head, body, `</html>`. -/
def makeWebpage (o : Options) (ctx : PageCtx) : Except Fatal String :=
  match addWebpageHead o ctx with
  | .error e => .error e
  | .ok headPart =>
    .ok ((if o.includeDTD then g_Doctype else "") ++ g_PageOpenTag ++ headPart
          ++ addWebpageBody o ctx ++ g_PageCloseTag)

/-! ## The `sed` link rewrite of `webpages.sh` (line 219)

`sed -i 's/\.md\">/\.html\">/g'` replaces, left to right without rescanning
replaced text, every occurrence of the literal `.md">` with `.html">`.  The
pattern contains no newline, so a match never spans lines and applying the
substitution to the whole file text is equivalent to sed's per-line pass. -/

def mdPat : List Char := ['.', 'm', 'd', '"', '>']

def htmlRep : List Char := ['.', 'h', 't', 'm', 'l', '"', '>']

/-- One global substitution pass. -/
def replaceMdLinks (s : List Char) : List Char :=
  if h : mdPat.isPrefixOf s then htmlRep ++ replaceMdLinks (s.drop 5)
  else
    match s with
    | [] => []
    | c :: t => c :: replaceMdLinks t
termination_by s.length
decreasing_by
  · have h5 : mdPat.length ≤ s.length := isPrefixOf_length_le mdPat s h
    simp only [mdPat, List.length_cons, List.length_nil] at h5
    simp only [List.length_drop]
    omega
  · simp

/-- The rewrite pass on a whole file. -/
def sedLinkRewrite (s : String) : String := String.mk (replaceMdLinks s.data)

/-! # Claim theorems -/

/-! ## C1 — css option wiring of the orchestrated build -/

/-- C1: the claim states that in an orchestrated build with css-enabled left
at its default (off) no `-c` option is passed to the assembler, and that a
stylesheet link appears iff css-enabled is on.  The script instead tests
`[[ ${css} ]]` — bash string non-emptiness — and the default value of `css`
is the non-empty string `"false"`, so the `-c <abshtmlroot>` option is passed
even in the default configuration (and the assembler then links a stylesheet
into every page, or aborts the page when none is found): the test contradicts
the script's own documentation (`opt c is to turn on linking of css files
( default is false )`) and its comment (`if the user has asked for css, set up
the option`). -/
theorem c1_cssOption_passed_despite_default (abshtmlroot : String) :
    cssBuildOption cssDefault abshtmlroot = " -c " ++ abshtmlroot ++ " " := rfl

/-! ## C7 — cleanup completeness and frame -/

/-- C7: after the three `find -delete` passes, no file whose basename matches
`*.md`, `*.backup` or `*.txt` remains; every file matching none of the three
patterns survives, identical (same directory, name and contents); and nothing
new appears. -/
theorem c7_cleanup_complete (files : List FileEntry) :
    (∀ f ∈ cleanupPass files,
      f.name.endsWith ".md" = false ∧ f.name.endsWith ".backup" = false ∧
        f.name.endsWith ".txt" = false) ∧
    (∀ f ∈ files,
      f.name.endsWith ".md" = false → f.name.endsWith ".backup" = false →
        f.name.endsWith ".txt" = false → f ∈ cleanupPass files) ∧
    (∀ f ∈ cleanupPass files, f ∈ files) := by
  refine ⟨?_, ?_, ?_⟩
  · intro f hf
    simp only [cleanupPass, deleteMatching, List.mem_filter, Bool.not_eq_true'] at hf
    exact ⟨hf.1.1.2, hf.1.2, hf.2⟩
  · intro f hf h1 h2 h3
    simp only [cleanupPass, deleteMatching, List.mem_filter, Bool.not_eq_true']
    exact ⟨⟨⟨hf, h1⟩, h2⟩, h3⟩
  · intro f hf
    simp only [cleanupPass, deleteMatching, List.mem_filter, Bool.not_eq_true'] at hf
    exact hf.1.1.1

/-! ## C9 — unparsable `-f` value -/

theorem stripHexMarker_of_noHexHead (r : List Char) (h : noHexHead r = true) :
    stripHexMarker r = r := by
  match r with
  | [] => rfl
  | [c] => rfl
  | c0 :: c1 :: rest =>
    simp only [noHexHead, Option.isNone_iff_eq_none] at h
    show (if c0 = '0' ∧ (c1 = 'x' ∨ c1 = 'X') ∧ hexDigitStarts rest = true
          then rest else (c0 :: c1 :: rest)) = c0 :: c1 :: rest
    rw [if_neg]
    rintro ⟨rfl, -, -⟩
    simp [hexVal] at h

theorem strtolMag_of_noHexHead (r : List Char) (h : noHexHead r = true) :
    strtolMag r = 0 := by
  rw [strtolMag, stripHexMarker_of_noHexHead r h]
  cases r with
  | nil => rfl
  | cons c rest =>
    simp only [noHexHead, Option.isNone_iff_eq_none] at h
    simp [hexAccum, List.takeWhile_cons, h]

theorem strtolHex_of_noConv (s : String) (h : strtolNoConv s = true) :
    strtolHex s = 0 := by
  unfold strtolNoConv at h
  unfold strtolHex
  rw [strtolMag_of_noHexHead _ h]
  simp

/-- C9: when `strtol` performs no conversion on the `-f` value (no leading
hex digit after whitespace and an optional sign), the flags are silently `0`:
the options keep their defaults — every section is included — and the `-f`
branch produces no error and no exit. -/
theorem c9_unparsable_flags_silent_default (s : String) (h : strtolNoConv s = true) :
    strtolHex s = 0 ∧ handleFlagsOpt s defaultOptions = .ok defaultOptions := by
  have hz := strtolHex_of_noConv s h
  refine ⟨hz, ?_⟩
  unfold handleFlagsOpt
  rw [hz]
  have happ : applyFlags 0 defaultOptions = defaultOptions := by decide
  rw [happ]

theorem c9_unparsable_flags_silent_default_witness :
    strtolNoConv "xyz" = true ∧ strtolHex "xyz" = 0 ∧
      handleFlagsOpt "xyz" defaultOptions = .ok defaultOptions :=
  ⟨by decide, c9_unparsable_flags_silent_default "xyz" (by decide)⟩

/-! ## C10 — more than one positional argument -/

/-- C10: with two or more positional arguments (`argc - optind ≥ 2` after
`getopt` has permuted the command line), `getOptions` reaches
`assert( (optind + 1) == argc )` and aborts — not any of the defined negative
exit codes, and no user-facing diagnostic. -/
theorem c10_excess_positionals_assert (optind argc : Nat) (h : optind + 2 ≤ argc) :
    positionalArgCheck optind argc = .assertAbort ∧
      ∀ code : Int, positionalArgCheck optind argc ≠ .exited code := by
  have h1 : ¬ optind = argc := by omega
  have h2 : ¬ optind + 1 = argc := by omega
  simp [positionalArgCheck, h1, h2]

theorem c10_excess_positionals_assert_witness :
    positionalArgCheck 1 3 = TailResult.assertAbort :=
  (c10_excess_positionals_assert 1 3 (by decide)).1

/-! ## C5 — flags bitmask bit isolation -/

/-- C5: each bit of the `-f` bitmask omits exactly its own item — 0x01 the
DOCTYPE line, 0x02 the title element, 0x04 the datetime comment, 0x08 the
author comment — and changes nothing else: for every flags value (as parsed
by `strtol`, so any `long`) the page built from the default configuration is
one fixed sequence of segments in which each optional segment is present iff
its own bit is clear, so the bits compose independently (at `0x05` exactly
the DOCTYPE and the datetime disappear, and so on). -/
theorem c5_flag_bits_independent (flags : Int) (ctx : PageCtx) :
    makeWebpage (applyFlags flags defaultOptions) ctx =
      (includeTxtFile ctx.txtFile ctx.blksize).map (fun txtPart =>
        (if flagBitSet flags 1 then "" else g_Doctype)
        ++ g_PageOpenTag
        ++ g_HeadOpenTag
        ++ (if flagBitSet flags 2 then ""
            else g_TitleOpenTag ++ ctx.rootFilename ++ g_TitleCloseTag)
        ++ (if flagBitSet flags 8 then ""
            else g_CommentOpenTag ++ "Author is " ++ ctx.username ++ g_CommentCloseTag)
        ++ (if flagBitSet flags 4 then ""
            else g_CommentOpenTag ++ "Datetime is " ++ ctx.timeStr ++ g_CommentCloseTag)
        ++ txtPart
        ++ g_HeadCloseTag
        ++ g_BodyOpenTag ++ ctx.rendered ++ g_BodyCloseTag
        ++ g_PageCloseTag) := by
  cases htxt : includeTxtFile ctx.txtFile ctx.blksize with
  | error e =>
    simp [makeWebpage, addWebpageHead, addWebpageBody, cssSection, applyFlags,
      defaultOptions, htxt, Except.map]
  | ok txtPart =>
    cases hb1 : flagBitSet flags 1 <;> cases hb2 : flagBitSet flags 2 <;>
      cases hb4 : flagBitSet flags 4 <;> cases hb8 : flagBitSet flags 8 <;>
      simp [makeWebpage, addWebpageHead, addWebpageBody, cssSection, applyFlags,
        defaultOptions, htxt, hb1, hb2, hb4, hb8, Except.map, String.append_assoc,
        String.append_empty, String.empty_append]

/-! ## C3 — the sidecar copy is not byte-for-byte for every size -/

theorem copyFileLoop_block_multiple_none (blk : Nat) (hblk : 0 < blk)
    (data : List Char) :
    ∀ (n pos w : Nat) (out : List Char), data.length - pos = n →
      blk ∣ pos → w = pos / blk → pos < data.length → blk ∣ (data.length - pos) →
      copyFileLoop blk hblk data pos w out = none := by
  intro n
  induction n using Nat.strong_induction_on with
  | _ n ih =>
    intro pos w out hn hdp hw hlt hdr
    obtain ⟨m, hm⟩ := hdr
    have hm1 : 1 ≤ m := by
      rcases Nat.eq_zero_or_pos m with h0 | h1
      · subst h0
        simp at hm
        omega
      · exact h1
    have hble : blk ≤ data.length - pos := by
      calc blk = blk * 1 := (Nat.mul_one blk).symm
        _ ≤ blk * m := Nat.mul_le_mul_left blk hm1
        _ = data.length - pos := hm.symm
    have hmin : min blk (data.length - pos) = blk := Nat.min_eq_left hble
    have hmod : (pos + blk) % blk = 0 := by
      rw [Nat.add_mod_right]
      exact Nat.dvd_iff_mod_eq_zero.mp hdp
    unfold copyFileLoop
    rw [hmin]
    by_cases hcase : pos + blk < data.length
    · rw [dif_pos hcase]
      refine ih (data.length - (pos + blk)) (by omega) (pos + blk) (w + 1) _ rfl
        (dvd_add hdp (dvd_refl blk)) ?_ hcase ?_
      · rw [hw, Nat.add_div_right pos hblk]
      · rw [Nat.sub_add_eq]
        exact Nat.dvd_sub' ⟨m, hm⟩ (dvd_refl blk)
    · rw [dif_neg hcase]
      have hne : ¬ (pos + blk = w * blk + (pos + blk) % blk) := by
        rw [hmod, hw, Nat.add_zero, Nat.div_mul_cancel hdp]
        omega
      rw [if_neg hne]

/-- C3: the claim states the sidecar `<stem>.txt` is copied into the head
byte-for-byte for every size and content.  `copyFile` is not: whenever the
file size is a positive exact multiple of `st_blksize`, the final
`fwrite( buf, 1, bytesRead % blksize )` writes `0` bytes (the comment in the
source expects only an efficiency loss there), the last block is never
emitted, and `assert( bytesRead == written )` fails, aborting the build.
The sidecar contents therefore do not appear for such files, contradicting
both the claim and `copyFile`'s own contract (`Copy the whole of the input
file to the output file`). -/
theorem c3_copyFile_exact_block_multiple_aborts (blk : Nat) (data : List Char)
    (hblk : 0 < blk) (hlen : 0 < data.length) (hdvd : blk ∣ data.length) :
    copyFile blk data = none := by
  unfold copyFile
  rw [dif_pos hblk]
  exact copyFileLoop_block_multiple_none blk hblk data data.length 0 0 []
    (by omega) (dvd_zero blk) (Nat.zero_div blk).symm hlen (by simpa using hdvd)

theorem c3_copyFile_exact_block_multiple_aborts_witness :
    0 < 2 ∧ 0 < (['a', 'b'] : List Char).length ∧
      2 ∣ (['a', 'b'] : List Char).length ∧ copyFile 2 ['a', 'b'] = none :=
  ⟨by decide, by decide, by decide,
    c3_copyFile_exact_block_multiple_aborts 2 ['a', 'b'] (by decide) (by decide)
      (by decide)⟩

/-! ## C2 — resolver outcome for a start directory at or below the boundary -/

theorem findCssFile_below_root (fs : DirFs) (root : AbsPath) (hroot : root ≠ []) :
    ∀ (ext : List String) (sd : List Char),
      (∃ p, findCssFile fs root (root ++ ext) sd = .found p) ∨
        findCssFile fs root (root ++ ext) sd = .noCss := by
  intro ext
  induction ext using List.reverseRecOn with
  | nil =>
    intro sd
    rw [List.append_nil, findCssFile]
    split
    · exact Or.inl ⟨_, rfl⟩
    · rw [dif_neg hroot, if_pos rfl]
      exact Or.inr rfl
  | append_singleton xs x ih =>
    intro sd
    rw [findCssFile]
    split
    · exact Or.inl ⟨_, rfl⟩
    · have hne : root ++ (xs ++ [x]) ≠ [] := by
        simp [hroot]
      have hne2 : root ++ (xs ++ [x]) ≠ root := by
        intro heq
        have hlen := congrArg List.length heq
        simp [List.length_append] at hlen
      rw [dif_neg hne, if_neg hne2]
      have hdrop : (root ++ (xs ++ [x])).dropLast = root ++ xs := by
        rw [← List.append_assoc]
        exact List.dropLast_concat
      rw [hdrop]
      exact ih (sd ++ ['.', '.', '/'])

/-- C2 (as stated by the claim) is false at one input: when the configured
boundary root is the filesystem root `/` itself (which the `-c` validation
accepts), a search that reaches the boundary without a match takes the
`strcmp( "/", absPathPtr )` branch — which the source tests *before*
comparing with `cssRoot` — and exits with `EXIT_INVOKED_OUTSIDE_HTML_ROOT`,
not with the "not found" condition: here the start directory `/` is at the
boundary root `/`, no entry matches, and the outcome is neither a found path
nor `noCss`. -/
theorem c2_boundary_is_slash_counterexample :
    findCssFile (fun _ => []) [] [] ['.', '/'] = .outsideRoot ∧
      ¬((∃ p, findCssFile (fun _ => []) [] [] ['.', '/'] = .found p) ∨
        findCssFile (fun _ => []) [] [] ['.', '/'] = .noCss) := by
  have h : findCssFile (fun _ => ([] : List String)) [] [] ['.', '/'] = .outsideRoot := by
    rw [findCssFile]
    rfl
  refine ⟨h, ?_⟩
  rintro (⟨p, hp⟩ | hp) <;> rw [h] at hp <;> exact CssSearchResult.noConfusion hp

/-- C2 (amended): for every start directory at or below the boundary root,
**provided the boundary root is not the filesystem root `/`**, the search
terminates by either returning a stylesheet path or reporting "not found"
(the `NULL` return that the caller turns into the fatal
`EXIT_NO_CSS_FILE`) when the canonicalized search directory reaches the
boundary — it never ascends past the boundary.  (When the boundary root is
`/` itself the search still terminates, but through the
`EXIT_INVOKED_OUTSIDE_HTML_ROOT` branch, which the source tests first.) -/
theorem c2_search_terminates_at_boundary (fs : DirFs) (root ext : List String)
    (hroot : root ≠ []) :
    (∃ p, findCssFile fs root (root ++ ext) ['.', '/'] = .found p) ∨
      findCssFile fs root (root ++ ext) ['.', '/'] = .noCss :=
  findCssFile_below_root fs root hroot ext ['.', '/']

theorem c2_search_terminates_at_boundary_witness :
    (∃ p, findCssFile (fun _ => []) ["site"] (["site"] ++ ["sub"]) ['.', '/'] = .found p) ∨
      findCssFile (fun _ => []) ["site"] (["site"] ++ ["sub"]) ['.', '/'] = .noCss :=
  c2_search_terminates_at_boundary (fun _ => []) ["site"] ["sub"] (by decide)

/-! ## C4 — shape of the returned relative path -/

/-- The `j`-th ancestor of a directory (`j` applications of `dropLast`),
i.e. the absolute path the search directory canonicalizes to after `j`
ascents. -/
def upN (p : AbsPath) : Nat → AbsPath
  | 0 => p
  | n + 1 => upN p.dropLast n

/-- The `../` prefix accumulated after `k` ascents. -/
def repUpL : Nat → List Char
  | 0 => []
  | n + 1 => '.' :: '.' :: '/' :: repUpL n

theorem upN_length (n : Nat) : ∀ p : AbsPath, (upN p n).length = p.length - n := by
  induction n with
  | zero => intro p; simp [upN]
  | succ n ih =>
    intro p
    show (upN p.dropLast n).length = p.length - (n + 1)
    rw [ih p.dropLast, List.length_dropLast]
    omega

theorem upN_append (root : AbsPath) (n : Nat) :
    ∀ ext : AbsPath, n ≤ ext.length → upN (root ++ ext) n = root ++ upN ext n := by
  induction n with
  | zero => intro ext _; rfl
  | succ n ih =>
    intro ext hlen
    have hne : ext ≠ [] := by
      intro h
      rw [h] at hlen
      simp at hlen
    show upN (root ++ ext).dropLast n = root ++ upN ext.dropLast n
    rw [List.dropLast_append_of_ne_nil root hne]
    exact ih ext.dropLast (by rw [List.length_dropLast]; omega)

/-- Walking the search up `k` clean levels (no `.css` match, never at `/`,
never at the css root) accumulates exactly one `../` per level. -/
theorem findCssFile_ascend (fs : DirFs) (root : AbsPath) :
    ∀ (k : Nat) (cur : AbsPath) (sd : List Char),
      (∀ j, j < k → (fs (upN cur j)).find? containsCss = none) →
      (∀ j, j < k → upN cur j ≠ [] ∧ upN cur j ≠ root) →
      findCssFile fs root cur sd = findCssFile fs root (upN cur k) (sd ++ repUpL k) := by
  intro k
  induction k with
  | zero =>
    intro cur sd _ _
    rw [show repUpL 0 = [] from rfl, List.append_nil]
    rfl
  | succ k ih =>
    intro cur sd hclean hne
    have h0 : (fs cur).find? containsCss = none := hclean 0 (Nat.succ_pos k)
    have h0' : cur ≠ [] ∧ cur ≠ root := hne 0 (Nat.succ_pos k)
    rw [findCssFile]
    split
    · next name heq => rw [h0] at heq; exact Option.noConfusion heq
    · rw [dif_neg h0'.1, if_neg h0'.2]
      have step := ih cur.dropLast (sd ++ ['.', '.', '/'])
        (fun j hj => hclean (j + 1) (by omega))
        (fun j hj => hne (j + 1) (by omega))
      rw [step, List.append_assoc]
      rfl

theorem find?_of_filter_eq_singleton {α : Type} (p : α → Bool) :
    ∀ (l : List α) (a : α), l.filter p = [a] → l.find? p = some a := by
  intro l
  induction l with
  | nil => intro a h; simp at h
  | cons x t ih =>
    intro a h
    cases hx : p x with
    | true =>
      rw [List.filter_cons_of_pos hx] at h
      rw [List.find?_cons_of_pos t hx]
      exact congrArg some (List.cons.inj h).1
    | false =>
      rw [List.filter_cons_of_neg (by simp [hx])] at h
      rw [List.find?_cons_of_neg t (by simp [hx])]
      exact ih a h

theorem countSub_eq_zero_of_noSlash :
    ∀ s : List Char, (∀ c ∈ s, c ≠ '/') → countSub ['.', '.', '/'] s = 0 := by
  intro s
  induction s with
  | nil => intro _; rfl
  | cons c t ih =>
    intro h
    have hpre : (['.', '.', '/'] : List Char).isPrefixOf (c :: t) = false := by
      cases t with
      | nil => simp [List.isPrefixOf]
      | cons c2 t2 =>
        cases t2 with
        | nil => simp [List.isPrefixOf]
        | cons c3 t3 =>
          have h3 : c3 ≠ '/' := fun hc => h c3 (by simp [hc]) hc
          simp [List.isPrefixOf]
          intro _ _
          exact fun hc => absurd hc.symm h3
    have ih' := ih fun c' hc' => h c' (List.mem_cons_of_mem c hc')
    simp [countSub, hpre, ih']

theorem countSub_repUpL (name : List Char) (hname : ∀ c ∈ name, c ≠ '/') :
    ∀ k : Nat, countSub ['.', '.', '/'] (repUpL k ++ name) = k := by
  intro k
  induction k with
  | zero =>
    show countSub ['.', '.', '/'] name = 0
    exact countSub_eq_zero_of_noSlash name hname
  | succ k ih =>
    show countSub ['.', '.', '/'] ('.' :: '.' :: '/' :: (repUpL k ++ name)) = k + 1
    have p0 : (['.', '.', '/'] : List Char).isPrefixOf
        ('.' :: '.' :: '/' :: (repUpL k ++ name)) = true := by
      simp [List.isPrefixOf]
    have p1 : (['.', '.', '/'] : List Char).isPrefixOf
        ('.' :: '/' :: (repUpL k ++ name)) = false := by
      simp [List.isPrefixOf]
    have p2 : (['.', '.', '/'] : List Char).isPrefixOf
        ('/' :: (repUpL k ++ name)) = false := by
      simp [List.isPrefixOf]
    rw [countSub, countSub, countSub, p0, p1, p2, ih]
    norm_num
    omega

/-- C4: when the start directory and every directory passed on the way up
contain no entry matching `.css`, and the ancestor `k` levels up — strictly
between the start and the boundary root — contains exactly one such entry,
the resolver returns the relative path `./` followed by exactly `k` `../`
segments and that entry's filename: the path contains exactly as many `../`
occurrences as levels ascended and is suffixed with the filename.
(`readdir` yields no name containing a slash, so the filename cannot add
spurious `../` occurrences.) -/
theorem c4_resolver_relative_path (fs : DirFs) (root ext : List String) (k : Nat)
    (name : String) (hk1 : 1 ≤ k) (hk2 : k + 1 ≤ ext.length)
    (hclean : ∀ j, j < k → ∀ nm ∈ fs (upN (root ++ ext) j), containsCss nm = false)
    (hone : (fs (upN (root ++ ext) k)).filter containsCss = [name])
    (hname : ∀ c ∈ name.data, c ≠ '/') :
    findCssFile fs root (root ++ ext) ['.', '/']
        = .found (['.', '/'] ++ repUpL k ++ name.data) ∧
      countSub ['.', '.', '/'] (['.', '/'] ++ repUpL k ++ name.data) = k ∧
      name.data <:+ (['.', '/'] ++ repUpL k ++ name.data) := by
  have hne : ∀ j, j < k → upN (root ++ ext) j ≠ [] ∧ upN (root ++ ext) j ≠ root := by
    intro j hj
    have hjl : j ≤ ext.length := by omega
    rw [upN_append root j ext hjl]
    have hexl : (upN ext j).length = ext.length - j := upN_length j ext
    constructor
    · intro heq
      have hl := congrArg List.length heq
      simp [List.length_append, hexl] at hl
      omega
    · intro heq
      have hl := congrArg List.length heq
      simp [List.length_append, hexl] at hl
      omega
  have htrav := findCssFile_ascend fs root k (root ++ ext) ['.', '/']
    (fun j hj => List.find?_eq_none.mpr fun nm hmem => by simp [hclean j hj nm hmem])
    hne
  have hfind : (fs (upN (root ++ ext) k)).find? containsCss = some name :=
    find?_of_filter_eq_singleton containsCss _ name hone
  refine ⟨?_, ?_, ?_⟩
  · rw [htrav, findCssFile, hfind]
  · show countSub ['.', '.', '/'] ('.' :: '/' :: (repUpL k ++ name.data)) = k
    have q1 : (['.', '.', '/'] : List Char).isPrefixOf
        ('.' :: '/' :: (repUpL k ++ name.data)) = false := by
      simp [List.isPrefixOf]
    have q2 : (['.', '.', '/'] : List Char).isPrefixOf
        ('/' :: (repUpL k ++ name.data)) = false := by
      simp [List.isPrefixOf]
    rw [countSub, countSub, q1, q2, countSub_repUpL name.data hname k]
    simp
  · exact ⟨['.', '/'] ++ repUpL k, rfl⟩

theorem c4_resolver_relative_path_witness :
    findCssFile (fun p => if p = ["site", "a"] then ["style.css"] else [])
        ["site"] (["site"] ++ ["a", "b"]) ['.', '/']
        = .found (['.', '/'] ++ repUpL 1 ++ "style.css".data) ∧
      countSub ['.', '.', '/'] (['.', '/'] ++ repUpL 1 ++ "style.css".data) = 1 ∧
      "style.css".data <:+ (['.', '/'] ++ repUpL 1 ++ "style.css".data) :=
  c4_resolver_relative_path (fun p => if p = ["site", "a"] then ["style.css"] else [])
    ["site"] ["a", "b"] 1 "style.css" (by decide) (by decide)
    (fun j hj => by
      have hj0 : j = 0 := by omega
      subst hj0
      decide)
    (by decide) (by decide)

/-! ## C6 — idempotence of the link rewrite -/

theorem replaceMdLinks_nil : replaceMdLinks [] = [] := by
  rw [replaceMdLinks]
  rfl

theorem replaceMdLinks_pos (s : List Char) (h : mdPat.isPrefixOf s = true) :
    replaceMdLinks s = htmlRep ++ replaceMdLinks (s.drop 5) := by
  rw [replaceMdLinks, dif_pos h]

theorem replaceMdLinks_neg_cons (c : Char) (t : List Char)
    (h : ¬ mdPat.isPrefixOf (c :: t) = true) :
    replaceMdLinks (c :: t) = c :: replaceMdLinks t := by
  rw [replaceMdLinks, dif_neg h]

/-- A proper tail of the pattern that is a prefix of a rewritten text was
already a prefix of the original text: the replacement `.html">` can
contribute no characters to such a prefix. -/
theorem mdPat_drop_isPrefixOf_of_replace :
    ∀ (t : List Char) (k : Nat), 1 ≤ k →
      (mdPat.drop k).isPrefixOf (replaceMdLinks t) = true →
      (mdPat.drop k).isPrefixOf t = true := by
  intro t
  induction t with
  | nil =>
    intro k hk hp
    rwa [replaceMdLinks_nil] at hp
  | cons c t ih =>
    intro k hk hp
    rcases k with _ | _ | _ | _ | _ | n
    · omega
    · by_cases hpre : mdPat.isPrefixOf (c :: t) = true
      · rw [replaceMdLinks_pos _ hpre] at hp
        simp [mdPat, htmlRep, List.isPrefixOf] at hp
      · rw [replaceMdLinks_neg_cons c t hpre] at hp
        simp only [mdPat, List.isPrefixOf, Bool.and_eq_true, beq_iff_eq] at hp ⊢
        exact ⟨hp.1, ih 2 (by omega) hp.2⟩
    · by_cases hpre : mdPat.isPrefixOf (c :: t) = true
      · rw [replaceMdLinks_pos _ hpre] at hp
        simp [mdPat, htmlRep, List.isPrefixOf] at hp
      · rw [replaceMdLinks_neg_cons c t hpre] at hp
        simp only [mdPat, List.isPrefixOf, Bool.and_eq_true, beq_iff_eq] at hp ⊢
        exact ⟨hp.1, ih 3 (by omega) hp.2⟩
    · by_cases hpre : mdPat.isPrefixOf (c :: t) = true
      · rw [replaceMdLinks_pos _ hpre] at hp
        simp [mdPat, htmlRep, List.isPrefixOf] at hp
      · rw [replaceMdLinks_neg_cons c t hpre] at hp
        simp only [mdPat, List.isPrefixOf, Bool.and_eq_true, beq_iff_eq] at hp ⊢
        exact ⟨hp.1, ih 4 (by omega) hp.2⟩
    · by_cases hpre : mdPat.isPrefixOf (c :: t) = true
      · rw [replaceMdLinks_pos _ hpre] at hp
        simp [mdPat, htmlRep, List.isPrefixOf] at hp
      · rw [replaceMdLinks_neg_cons c t hpre] at hp
        simp only [mdPat, List.isPrefixOf, Bool.and_eq_true, beq_iff_eq] at hp ⊢
        exact hp
    · have hnil : mdPat.drop (n + 5) = [] := by
        apply List.drop_eq_nil_of_le
        simp [mdPat]
      rw [hnil]
      simp [List.isPrefixOf]

/-- Occurrences of the pattern in `.html">` ++ R are exactly those in `R`:
the replacement text neither contains the pattern nor can a pattern
occurrence straddle its boundary. -/
theorem hasSubstr_mdPat_htmlRep_append (R : List Char) :
    hasSubstr mdPat (htmlRep ++ R) = hasSubstr mdPat R := by
  show hasSubstr mdPat
    ('.' :: 'h' :: 't' :: 'm' :: 'l' :: '"' :: '>' :: R) = hasSubstr mdPat R
  simp [hasSubstr, mdPat, List.isPrefixOf]

/-- After one rewrite pass no occurrence of `.md">` remains. -/
theorem replaceMdLinks_no_mdPat (s : List Char) :
    hasSubstr mdPat (replaceMdLinks s) = false := by
  induction s using replaceMdLinks.induct with
  | case1 s hpre ih =>
    rw [replaceMdLinks_pos s hpre, hasSubstr_mdPat_htmlRep_append]
    exact ih
  | case2 hpre hpre2 =>
    rw [replaceMdLinks_nil]
    rfl
  | case3 c t hpre hpre2 ih =>
    rw [replaceMdLinks_neg_cons c t hpre, hasSubstr, ih, Bool.or_false]
    cases hb : mdPat.isPrefixOf (c :: replaceMdLinks t) with
    | false => rfl
    | true =>
      exfalso
      simp only [mdPat, List.isPrefixOf, Bool.and_eq_true, beq_iff_eq] at hb
      have htail : (mdPat.drop 1).isPrefixOf t = true :=
        mdPat_drop_isPrefixOf_of_replace t 1 (by omega)
          (by simpa [mdPat, List.isPrefixOf, Bool.and_eq_true, beq_iff_eq] using hb.2)
      apply hpre
      simp only [mdPat, List.isPrefixOf, Bool.and_eq_true, beq_iff_eq]
      refine ⟨hb.1, ?_⟩
      simpa [mdPat, List.isPrefixOf] using htail

/-- A text without the pattern passes through the rewrite unchanged. -/
theorem replaceMdLinks_of_no_mdPat (s : List Char) (h : hasSubstr mdPat s = false) :
    replaceMdLinks s = s := by
  induction s with
  | nil => exact replaceMdLinks_nil
  | cons c t ih =>
    rw [hasSubstr, Bool.or_eq_false_iff] at h
    rw [replaceMdLinks_neg_cons c t (by simp [h.1]), ih h.2]

/-- C6: the sed pass replacing the literal `.md">` with `.html">` is
idempotent: its output contains no remaining `.md">` occurrence (the
replacement text cannot create one, also not across a boundary), so a second
pass leaves every file unchanged. -/
theorem c6_link_rewrite_idempotent (s : String) :
    hasSubstr mdPat (sedLinkRewrite s).data = false ∧
      sedLinkRewrite (sedLinkRewrite s) = sedLinkRewrite s := by
  have h1 : hasSubstr mdPat (replaceMdLinks s.data) = false :=
    replaceMdLinks_no_mdPat s.data
  refine ⟨h1, ?_⟩
  show String.mk (replaceMdLinks (replaceMdLinks s.data)) = String.mk (replaceMdLinks s.data)
  rw [replaceMdLinks_of_no_mdPat _ h1]

/-! ## C8 — navigation embedding immediately before the body closes -/

/-- C8: whenever a navigation-embed fragment is configured and the assembler
produces a page, the page ends with the HTML comment wrapper containing the
fragment text verbatim, immediately followed by the closing body tag and the
closing html tag — i.e. the comment sits immediately before `</body>`. -/
theorem c8_nav_embed_before_body_close (o : Options) (ctx : PageCtx)
    (nav out : String) (hnav : o.navEmbedCode = some nav)
    (hout : makeWebpage o ctx = .ok out) :
    ∃ pre, out = pre
      ++ (g_CommentOpenTag ++ " NAVIGATION EMBEDDING GOES HERE \n" ++ nav
          ++ g_CommentCloseTag)
      ++ (g_BodyCloseTag ++ g_PageCloseTag) := by
  unfold makeWebpage at hout
  split at hout
  · exact Except.noConfusion hout
  · next headPart heq =>
    have hbody : addWebpageBody o ctx
        = g_BodyOpenTag ++ ctx.rendered
          ++ (g_CommentOpenTag ++ " NAVIGATION EMBEDDING GOES HERE \n" ++ nav
              ++ g_CommentCloseTag)
          ++ g_BodyCloseTag := by
      unfold addWebpageBody
      rw [hnav]
    have hout' := Except.ok.inj hout
    refine ⟨(if o.includeDTD then g_Doctype else "") ++ g_PageOpenTag ++ headPart
      ++ (g_BodyOpenTag ++ ctx.rendered), ?_⟩
    rw [← hout', hbody]
    simp [String.append_assoc]

theorem c8_nav_embed_before_body_close_witness :
    ∃ pre,
      ("<!DOCTYPE html>\n<html>\n<head>\n<title>index</title>\n<!--Author is user-->\n<!--Datetime is timestamp-->\n</head>\n<body>\nBODY<!-- NAVIGATION EMBEDDING GOES HERE \nNAV-->\n</body>\n</html>\n" : String)
        = pre
          ++ (g_CommentOpenTag ++ " NAVIGATION EMBEDDING GOES HERE \n" ++ "NAV"
              ++ g_CommentCloseTag)
          ++ (g_BodyCloseTag ++ g_PageCloseTag) :=
  c8_nav_embed_before_body_close
    { includeTitle := true, includeDTD := true, includeAuthor := true,
      includeDatetime := true, cssRoot := none, navEmbedCode := some "NAV" }
    { rootFilename := "index", username := "user", timeStr := "timestamp",
      rendered := "BODY", txtFile := none, blksize := 1, fs := fun _ => [],
      cwd := [] }
    "NAV" _ rfl rfl
